import Mathlib

/-!
Verification of the deet debugger core (proj-1/deet: src/inferior.rs, src/debugger.rs).

The traced process's memory is modelled at ptrace granularity: a map from
addresses to the 8-byte word that a ptrace read at that address returns
(none models an address where the word-level peek/poke primitives fail).
Machine integers are Nat with explicit reduction modulo 2^64 where the Rust
code computes in u64/usize.  Fallible ptrace calls return Except; a Rust
unwrap of an Err or of a None is modelled as a distinguished Crash outcome.
-/

namespace Deet

/-! ### Observers used to state word-surgery properties -/

/-- Byte number k of a word (observer used to state properties). -/
def wordByte (W k : Nat) : Nat := W / 2 ^ (8 * k) % 256

/-- Arithmetic form of a word with byte k replaced by v (observer used in proofs). -/
def updWord (W k v : Nat) : Nat :=
  W % 2 ^ (8 * k) + v * 2 ^ (8 * k) + 2 ^ (8 * (k + 1)) * (W / 2 ^ (8 * (k + 1)))

/-! ### Memory model and ptrace primitives

Process memory at ptrace granularity: m a is the 8-byte word a ptrace read
at address a returns, none where the peek/poke primitives fail (dead pid,
unmapped page).  The inferior code only ever writes at 8-byte-aligned
addresses (write_byte aligns first), so keying words by their address is
faithful for every operation modelled here. -/

def Mem : Type := Nat → Option Nat

/-- Modulus of usize / u64 arithmetic on the target (64-bit). -/
def USIZE_MOD : Nat := 2 ^ 64

/-- nix::Error, abstracted: the errno carries no information the code inspects. -/
inductive NixError : Type
  | sys
deriving DecidableEq

/-- Source (inferior.rs): addr & (-(size_of::<usize>() as isize) as usize).
On a 64-bit target the two's complement mask -(8 as isize) as usize is 2^64 - 8. -/
def align_addr_to_word (addr : Nat) : Nat := addr &&& (USIZE_MOD - 8)

/-- ptrace::read(pid, addr) followed by the as-u64 cast. -/
def ptraceRead (m : Mem) (addr : Nat) : Except NixError Nat :=
  match m addr with
  | some w => .ok (w % USIZE_MOD)
  | none => .error .sys

/-- ptrace::write(pid, addr, val): stores a machine word (value taken mod 2^64). -/
def ptraceWrite (m : Mem) (addr val : Nat) : Except NixError Mem :=
  match m addr with
  | some _ => .ok (fun a => if a = addr then some (val % USIZE_MOD) else m a)
  | none => .error .sys

/-- Source (inferior.rs, Inferior::write_byte): read the aligned word, extract the
byte at addr, replace it by val (val is a u8, so val < 256 at every call site),
write the word back, return the original byte.  The u64 complement in
!(0xff << 8 * byte_offset) is the xor with the all-ones word. -/
def write_byte (m : Mem) (addr val : Nat) : Except NixError (Nat × Mem) :=
  let aligned_addr := align_addr_to_word addr
  let byte_offset := addr - aligned_addr
  match ptraceRead m aligned_addr with
  | .error e => .error e
  | .ok word =>
    let orig_byte := (word >>> (8 * byte_offset)) &&& 0xff
    let masked_word := word &&& ((USIZE_MOD - 1) ^^^ (0xff <<< (8 * byte_offset)))
    let updated_word := masked_word ||| (val <<< (8 * byte_offset))
    match ptraceWrite m aligned_addr updated_word with
    | .error e => .error e
    | .ok m1 => .ok (orig_byte, m1)

/-- Source (inferior.rs, Inferior::install_breakpoints): write the 0xCC trap opcode. -/
def install_breakpoints (m : Mem) (breakpoint : Nat) : Except NixError (Nat × Mem) :=
  write_byte m breakpoint 0xcc

/-- Observer: the byte stored at address a (through the word-granular memory). -/
def byteAt (m : Mem) (a : Nat) : Option Nat :=
  (m (align_addr_to_word a)).map
    (fun w => wordByte (w % USIZE_MOD) (a - align_addr_to_word a))

/-! ### Traced process, wait statuses and the ptrace step/continue oracle -/

/-- Subset of nix signal::Signal that the claims exercise. -/
inductive Signal : Type
  | SIGTRAP
  | SIGSEGV
  | SIGINT
  | SIGKILL
  | SIGALRM
deriving DecidableEq

/-- Source (inferior.rs): enum Status. -/
inductive Status : Type
  | Stopped (signal : Signal) (rip : Nat)
  | Exited (code : Int)
  | Signaled (signal : Signal)
deriving DecidableEq

/-- The registers the code reads and writes (getregs / setregs): rip and rbp. -/
structure Regs : Type where
  rip : Nat
  rbp : Nat
deriving DecidableEq

/-- The traced child process: its memory and register file.  The Rust Inferior
struct holds only the Child handle; the machine state it manipulates through
ptrace is modelled explicitly here. -/
structure Inferior : Type where
  mem : Mem
  regs : Regs

/-- Rust panic (an unwrap of an Err or a None aborts the session). -/
inductive Crash : Type
  | crash
deriving DecidableEq

/-- Oracle for the traced child: the machine state and wait status produced by
ptrace::step + waitpid (stepWait) and by ptrace::cont + waitpid (contWait).
The child's instruction execution is outside the debugger's code, so it is a
parameter of the model. -/
structure OS : Type where
  stepWait : Inferior → Inferior × Status
  contWait : Inferior → Inferior × Status

/-- Source (inferior.rs, Inferior::get_previous_ins): regs.rip as usize - 1. -/
def get_previous_ins (inf : Inferior) : Nat := inf.regs.rip - 1

/-- Source (inferior.rs, Inferior::continue_run): ptrace::cont then wait. -/
def continue_run (os : OS) (inf : Inferior) : Inferior × Status := os.contWait inf

/-- Source (inferior.rs, Inferior::step_breakpoint): restore the original byte,
rewind rip, single-step, and reinstall the trap only on a SIGTRAP stop.  All
three unwrap calls are modelled as Crash on failure. -/
def step_breakpoint (os : OS) (inf : Inferior) (rip orin_byte : Nat) :
    Except Crash (Bool × Inferior) :=
  match write_byte inf.mem rip orin_byte with
  | .error _ => .error .crash
  | .ok (_, m1) =>
    let inf1 : Inferior := ⟨m1, { inf.regs with rip := rip }⟩
    match os.stepWait inf1 with
    | (inf2, status) =>
      match status with
      | .Stopped s _ =>
        if s = Signal.SIGTRAP then
          match install_breakpoints inf2.mem rip with
          | .error _ => .error .crash
          | .ok (_, m3) => .ok (true, ⟨m3, inf2.regs⟩)
        else .ok (false, inf2)
      | _ => .ok (false, inf2)

/-! ### Breakpoint registry and the Debugger session -/

/-- Source (debugger.rs): struct BreakPoint. -/
structure BreakPoint : Type where
  id : Nat
  addr : Nat
  orig_byte : Nat
deriving DecidableEq

/-- Source (debugger.rs, BreakPoint::new): orig_byte starts at 0. -/
def BreakPoint.new (id addr : Nat) : BreakPoint := ⟨id, addr, 0⟩

/-- Source (debugger.rs, BreakPoint::set_byte). -/
def BreakPoint.set_byte (bp : BreakPoint) (orig_byte : Nat) : BreakPoint :=
  { bp with orig_byte := orig_byte }

/-- The HashMap<usize, BreakPoint> registry, as an association list keyed by address. -/
abbrev Breakpoints : Type := List (Nat × BreakPoint)

def bpLookup (bps : Breakpoints) (addr : Nat) : Option BreakPoint :=
  match bps with
  | [] => none
  | (a, bp) :: rest => if a = addr then some bp else bpLookup rest addr

def bpInsert (bps : Breakpoints) (addr : Nat) (bp : BreakPoint) : Breakpoints :=
  List.append bps [(addr, bp)]

def bpSetByte (bps : Breakpoints) (addr b : Nat) : Breakpoints :=
  bps.map (fun e => if e.1 = addr then (e.1, e.2.set_byte b) else e)

/-- Source (inferior.rs, Inferior::new): the for loop installing every registry
breakpoint into the fresh child.  The Result of each install_breakpoints call
is discarded: the captured original byte is dropped and an Err leaves memory
unchanged and is ignored. -/
def installAll (inf : Inferior) (breakpoints : Breakpoints) : Inferior :=
  breakpoints.foldl
    (fun inf e =>
      match install_breakpoints inf.mem e.1 with
      | .ok (_, m1) => { inf with mem := m1 }
      | .error _ => inf)
    inf

/-- Source (inferior.rs, Inferior::new): spawn the traced child (the spawn
outcome of Command::spawn().ok() is the parameter), then install every registry
breakpoint, then return Some unconditionally. -/
def Inferior.new (spawn : Option Inferior) (breakpoints : Breakpoints) : Option Inferior :=
  match spawn with
  | none => none
  | some inf => some (installAll inf breakpoints)

/-- The dwarf_data collaborator (interface only; out of the core per the spec). -/
structure DwarfData : Type where
  get_line_from_addr : Nat → Option Nat
  get_function_from_addr : Nat → Option String
  get_addr_for_line : Nat → Option Nat
  get_addr_for_function : String → Option Nat

/-- Source (debugger.rs): struct Debugger (target/history/readline and the
DwarfData handle live outside the modelled state). -/
structure Debugger : Type where
  inferior : Option Inferior
  breakpoints : Breakpoints

/-- The println output of one command, abstracted to constructors. -/
inductive OutLine : Type
  | notRunning
  | prevStopped (bp : BreakPoint)
  | failedStep
  | childStopped (sig : Signal)
  | stoppedAt (f : String) (l : Nat)
  | resolveFail
  | childExited (code : Int)
  | childSignaled (sig : Signal)
  | errorStarting
deriving DecidableEq

/-- Result of one command-loop iteration: output lines, number of
continue_run resume-and-wait cycles performed, and either the next session
state or a crash (Rust panic) that terminates the whole session. -/
inductive CmdResult : Type
  | next (output : List OutLine) (resumes : Nat) (d : Debugger)
  | crashed (output : List OutLine) (resumes : Nat)

def CmdResult.output : CmdResult → List OutLine
  | .next o _ _ => o
  | .crashed o _ => o

def CmdResult.resumes : CmdResult → Nat
  | .next _ r _ => r
  | .crashed _ r => r

def CmdResult.isCrash : CmdResult → Bool
  | .next _ _ _ => false
  | .crashed _ _ => true

def CmdResult.registry : CmdResult → Option Breakpoints
  | .next _ _ d => some d.breakpoints
  | .crashed _ _ => none

/-- Observer: the byte at address a in the live inferior of the resulting state. -/
def CmdResult.inferiorByte (r : CmdResult) (a : Nat) : Option Nat :=
  match r with
  | .next _ _ d =>
    match d.inferior with
    | some inf =>
      match byteAt inf.mem a with
      | some b => some b
      | none => none
    | none => none
  | .crashed _ _ => none

/-- Source (debugger.rs, Run and Continue arms, lines 115-126 and 155-165):
resolve and report the address of a stop. -/
def reportLoc (dd : DwarfData) (addr : Nat) : List OutLine :=
  match dd.get_function_from_addr addr, dd.get_line_from_addr addr with
  | some f, some l => [.stoppedAt f l]
  | some _, none => [.resolveFail]
  | none, some _ => [.resolveFail]
  | none, none => [.resolveFail]

/-- Source (debugger.rs, Continue arm, lines 154-176): one continue_run whose
status is reported; on Stopped the inferior stays live and line 176 performs a
second continue_run whose result is discarded; on Exited/Signaled the inferior
is set to None and line 176 then unwraps None: a panic. -/
def resume_and_report (os : OS) (dd : DwarfData) (d : Debugger) (pre : List OutLine)
    (inf : Inferior) : CmdResult :=
  match continue_run os inf with
  | (inf1, .Stopped sig addr) =>
    match continue_run os inf1 with
    | (inf2, _) =>
      .next (pre ++ (.childStopped sig :: reportLoc dd addr)) 2
        { d with inferior := some inf2 }
  | (_, .Signaled sig) => .crashed (pre ++ [.childSignaled sig]) 1
  | (_, .Exited code) => .crashed (pre ++ [.childExited code]) 1

/-- Source (debugger.rs, Continue arm, lines 132-177). -/
def continueArm (os : OS) (dd : DwarfData) (d : Debugger) : CmdResult :=
  match d.inferior with
  | none => .next [.notRunning] 0 d
  | some inf =>
    let rip := get_previous_ins inf
    match bpLookup d.breakpoints rip with
    | some bp =>
      match step_breakpoint os inf rip bp.orig_byte with
      | .error _ => .crashed [.prevStopped bp] 0
      | .ok (false, inf1) =>
        .next [.prevStopped bp, .failedStep] 0 { d with inferior := some inf1 }
      | .ok (true, inf1) => resume_and_report os dd d [.prevStopped bp] inf1
    | none => resume_and_report os dd d [] inf

/-- Source (debugger.rs, Run arm, lines 101-131): spawn with the registry
applied (Inferior::new), store the inferior, resume once and report.  Note the
registry is passed by shared reference and is never updated here, and the
inferior is kept even on an Exited/Signaled status. -/
def runArm (os : OS) (dd : DwarfData) (spawn : Option Inferior) (d : Debugger) : CmdResult :=
  match Inferior.new spawn d.breakpoints with
  | none => .next [.errorStarting] 0 d
  | some inf =>
    match continue_run os inf with
    | (inf1, .Exited code) => .next [.childExited code] 1 { d with inferior := some inf1 }
    | (inf1, .Signaled sig) => .next [.childSignaled sig] 1 { d with inferior := some inf1 }
    | (inf1, .Stopped sig addr) =>
      .next (.childStopped sig :: reportLoc dd addr) 1 { d with inferior := some inf1 }

/-- Source (debugger.rs, Quit arm, lines 178-181): self.inferior.as_mut().unwrap()
panics when no inferior exists; otherwise Inferior::kill kills and reaps the
child when the kill syscall succeeds (childKillOk) and does nothing otherwise.
The Bool result records whether the child was killed and reaped. -/
def quitArm (d : Debugger) (childKillOk : Bool) : Except Crash Bool :=
  match d.inferior with
  | none => .error .crash
  | some _ => .ok childKillOk

/-! ### Backtrace walk -/

/-- Outcome of print_backtrace: the frames printed, then either a normal stop at
main, a propagated ptrace read error, a crash from unwrapping a resolver miss,
or fuel exhaustion (the Rust loop would not have terminated within the fuel). -/
inductive BtResult : Type
  | frames (fs : List (String × Nat))
  | memErr (fs : List (String × Nat))
  | unwrapCrash (fs : List (String × Nat))
  | fuelOut (fs : List (String × Nat))
deriving DecidableEq

def BtResult.consFrame (f : String × Nat) : BtResult → BtResult
  | .frames fs => .frames (f :: fs)
  | .memErr fs => .memErr (f :: fs)
  | .unwrapCrash fs => .unwrapCrash (f :: fs)
  | .fuelOut fs => .fuelOut (f :: fs)

/-- Source (inferior.rs, Inferior::print_backtrace, loop body lines 106-115):
unwrap the resolver results (a None panics), print the frame, stop at main,
else follow the saved frame-pointer chain: next rip at [rbp + 8], next rbp at
[rbp]; a failing ptrace read propagates as Err. -/
def backtrace_loop (dd : DwarfData) (m : Mem) : Nat → Nat → Nat → BtResult
  | 0, _, _ => .fuelOut []
  | fuel + 1, instruction_ptr, base_ptr =>
    match dd.get_line_from_addr instruction_ptr with
    | none => .unwrapCrash []
    | some line =>
      match dd.get_function_from_addr instruction_ptr with
      | none => .unwrapCrash []
      | some func =>
        if func = "main" then .frames [(func, line)]
        else
          match ptraceRead m (base_ptr + 8) with
          | .error _ => .memErr [(func, line)]
          | .ok next_ip =>
            match ptraceRead m base_ptr with
            | .error _ => .memErr [(func, line)]
            | .ok next_bp =>
              (backtrace_loop dd m fuel next_ip next_bp).consFrame (func, line)

/-- Source (inferior.rs, Inferior::print_backtrace): start the walk from the
current rip and rbp (getregs is modelled as always readable). -/
def print_backtrace (dd : DwarfData) (inf : Inferior) (fuel : Nat) : BtResult :=
  backtrace_loop dd inf.mem fuel inf.regs.rip inf.regs.rbp

/-! ### break command: token classification and address resolution -/

/-- Rust char::to_digit(radix). -/
def char_to_digit (radix : Nat) (c : Char) : Option Nat :=
  let d : Option Nat :=
    if c.toNat ≥ 48 ∧ c.toNat ≤ 57 then some (c.toNat - 48)
    else if c.toNat ≥ 97 ∧ c.toNat ≤ 122 then some (c.toNat - 97 + 10)
    else if c.toNat ≥ 65 ∧ c.toNat ≤ 90 then some (c.toNat - 65 + 10)
    else none
  match d with
  | some v => if v < radix then some v else none
  | none => none

/-- Rust usize::from_str_radix: an optional leading plus sign, then one or more
digits of the radix; fails on an empty digit string, a bad digit, or a value
that overflows usize. -/
def from_str_radix (radix : Nat) (s : List Char) : Option Nat :=
  let digits := match s with
    | '+' :: rest => rest
    | _ => s
  match digits with
  | [] => none
  | _ =>
    match digits.mapM (char_to_digit radix) with
    | none => none
    | some ds =>
      let v := ds.foldl (fun acc d => acc * radix + d) 0
      if v < USIZE_MOD then some v else none

/-- Source (debugger.rs): enum BreakPointType. -/
inductive BreakPointType : Type
  | Raw (s : String)
  | Line (n : Nat)
  | Func (s : String)
deriving DecidableEq

/-- Source (debugger.rs, get_breakpoint_type): a leading star means raw address;
otherwise a full base-10 parse means line number; otherwise function name. -/
def get_breakpoint_type (breakpoint : String) : BreakPointType :=
  if breakpoint.data.head? = some '*' then .Raw (String.mk breakpoint.data.tail)
  else
    match from_str_radix 10 breakpoint.data with
    | some line => .Line line
    | none => .Func breakpoint

/-- Source (debugger.rs, parse_address): strip a case-insensitive 0x prefix
(to_lowercase is modelled per ASCII character, which agrees with Rust on the
only characters the prefix test can match), then parse hexadecimal. -/
def parse_address (addr : String) : Option Nat :=
  let lowered := addr.data.map Char.toLower
  let addr_without_0x :=
    if lowered.take 2 = ['0', 'x'] then addr.data.drop 2 else addr.data
  from_str_radix 16 addr_without_0x

/-- One consultation of the symbol resolver by the break command. -/
inductive ResolverCall : Type
  | line (n : Nat)
  | func (s : String)
deriving DecidableEq

/-- Source (debugger.rs, Break arm, lines 211-231): register the breakpoint if
new; if an inferior is live, install it and record the captured byte via
set_byte, keeping the fresh entry (orig_byte 0) if the install fails. -/
def breakRegister (d : Debugger) (breakpoint : Nat) : Debugger :=
  if (bpLookup d.breakpoints breakpoint).isSome then d
  else
    let bps := bpInsert d.breakpoints breakpoint
      (BreakPoint.new (d.breakpoints.length + 1) breakpoint)
    match d.inferior with
    | none => { d with breakpoints := bps }
    | some inf =>
      match install_breakpoints inf.mem breakpoint with
      | .ok (orig_byte, m1) =>
        ⟨some { inf with mem := m1 }, bpSetByte bps breakpoint orig_byte⟩
      | .error _ => { d with breakpoints := bps }

/-- Source (debugger.rs, Break arm, lines 187-209): dispatch on the token kind;
the raw-address parse is unwrapped (None panics), and the two resolver paths
give up without registering when the lookup fails.  The returned list records
every consultation of the symbol resolver, in order. -/
def breakArm (dd : DwarfData) (d : Debugger) (args : String) :
    Except Crash (Debugger × List ResolverCall) :=
  match get_breakpoint_type args with
  | .Raw address =>
    match parse_address address with
    | none => .error .crash
    | some breakpoint => .ok (breakRegister d breakpoint, [])
  | .Line line =>
    match dd.get_addr_for_line line with
    | none => .ok (d, [.line line])
    | some breakpoint => .ok (breakRegister d breakpoint, [.line line])
  | .Func func =>
    match dd.get_addr_for_function func with
    | none => .ok (d, [.func func])
    | some breakpoint => .ok (breakRegister d breakpoint, [.func func])

/-! ### Concrete fixtures for the evaluation theorems -/

/-- A process whose every word reads 0x55 (so every byte 0 of a word is 0x55). -/
def memC : Mem := fun _ => some 0x55

def infC : Inferior := ⟨memC, ⟨100, 0⟩⟩

/-- Oracle: every resume or step stops with SIGTRAP at 100. -/
def osStop : OS := ⟨fun i => (i, .Stopped .SIGTRAP 100), fun i => (i, .Stopped .SIGTRAP 100)⟩

/-- Oracle: every resume or step reports that the child exited with status 0. -/
def osExit : OS := ⟨fun i => (i, .Exited 0), fun i => (i, .Exited 0)⟩

/-- Resolver that knows nothing. -/
def ddNone : DwarfData := ⟨fun _ => none, fun _ => none, fun _ => none, fun _ => none⟩

/-- Resolver with function names but no line information. -/
def ddNoLine : DwarfData := ⟨fun _ => none, fun _ => some "foo", fun _ => none, fun _ => none⟩

/-- Two-frame stack: the saved return address 20 sits at [rbp + 8] = 108 and the
caller frame base 50 at [rbp] = 100. -/
def memWalk : Mem := fun a => if a = 108 then some 20 else if a = 100 then some 50 else some 0

def infWalk : Inferior := ⟨memWalk, ⟨10, 100⟩⟩

/-- Resolver for the two-frame stack: address 10 is foo at line 1, everything
else is main at line 2. -/
def ddWalk : DwarfData :=
  ⟨fun a => some (if a = 10 then 1 else 2),
   fun a => some (if a = 10 then "foo" else "main"),
   fun _ => none, fun _ => none⟩

/-- A process whose memory cannot be read at all. -/
def infNoMem : Inferior := ⟨fun _ => none, ⟨10, 100⟩⟩

/-- Resolver used for break-command dispatch: line n lives at 1000 + n, every
function lives at 2000. -/
def ddResolve : DwarfData :=
  ⟨fun _ => some 7, fun _ => some "f", fun n => some (1000 + n), fun _ => some 2000⟩

def dEmpty : Debugger := ⟨none, []⟩

/-! ### Word-surgery lemmas -/

theorem lt_add_mul_lt {b B a A : Nat} (hb : b < B) (ha : a < A) : b + B * a < B * A := by
  calc b + B * a < B + B * a := Nat.add_lt_add_right hb _
    _ = B * (1 + a) := by ring
    _ ≤ B * A := Nat.mul_le_mul_left B (by omega)

theorem pow_mul256 (k : Nat) : 2 ^ (8 * (k + 1)) = 2 ^ (8 * k) * 256 := by
  have h8 : 8 * (k + 1) = 8 * k + 8 := by ring
  rw [h8, Nat.pow_add]

theorem updWord_lt {W v k : Nat} (hW : W < 2 ^ 64) (hv : v < 256) (hk : k < 8) :
    updWord W k v < 2 ^ 64 := by
  unfold updWord
  have hP : (0:Nat) < 2 ^ (8 * k) := Nat.two_pow_pos _
  have hME : 2 ^ (8 * (k + 1)) * 2 ^ (64 - 8 * (k + 1)) = 2 ^ 64 := by
    rw [← Nat.pow_add]
    congr 1
    omega
  have hlo : W % 2 ^ (8 * k) + v * 2 ^ (8 * k) < 2 ^ (8 * (k + 1)) := by
    have h1 : W % 2 ^ (8 * k) < 2 ^ (8 * k) := Nat.mod_lt _ hP
    have h2 : v * 2 ^ (8 * k) ≤ 255 * 2 ^ (8 * k) := Nat.mul_le_mul_right _ (by omega)
    have h3 : 2 ^ (8 * k) + 255 * 2 ^ (8 * k) = 2 ^ (8 * k) * 256 := by ring
    have h4 := pow_mul256 k
    omega
  have hhi : W / 2 ^ (8 * (k + 1)) < 2 ^ (64 - 8 * (k + 1)) := by
    apply Nat.div_lt_of_lt_mul
    calc W < 2 ^ 64 := hW
      _ = 2 ^ (8 * (k + 1)) * 2 ^ (64 - 8 * (k + 1)) := by
          rw [← Nat.pow_add]
          congr 1
          omega
  calc W % 2 ^ (8 * k) + v * 2 ^ (8 * k) + 2 ^ (8 * (k + 1)) * (W / 2 ^ (8 * (k + 1)))
      < 2 ^ (8 * (k + 1)) * 2 ^ (64 - 8 * (k + 1)) := lt_add_mul_lt hlo hhi
    _ = 2 ^ 64 := hME

/-- The u64 read-modify-write performed by write_byte, in arithmetic form:
masking byte k out of W and or-ing in v yields the word with byte k set to v. -/
theorem update_word_eq (W v k : Nat) (hW : W < 2 ^ 64) (hv : v < 256) (hk : k < 8) :
    (W &&& ((2 ^ 64 - 1) ^^^ (0xff <<< (8 * k)))) ||| (v <<< (8 * k)) = updWord W k v := by
  have h255 : (0xff : Nat) = 2 ^ 8 - 1 := by norm_num
  have hrhs : updWord W k v =
      2 ^ (8 * (k + 1)) * (W / 2 ^ (8 * (k + 1))) + (2 ^ (8 * k) * v + W % 2 ^ (8 * k)) := by
    unfold updWord; ring
  have hlo : W % 2 ^ (8 * k) < 2 ^ (8 * k) := Nat.mod_lt _ (Nat.two_pow_pos _)
  have hb : 2 ^ (8 * k) * v + W % 2 ^ (8 * k) < 2 ^ (8 * (k + 1)) := by
    have h2 : 2 ^ (8 * k) * v ≤ 2 ^ (8 * k) * 255 := Nat.mul_le_mul_left _ (by omega)
    have h3 : 2 ^ (8 * k) * 255 + 2 ^ (8 * k) = 2 ^ (8 * k) * 256 := by ring
    have h4 := pow_mul256 k
    omega
  apply Nat.eq_of_testBit_eq
  intro i
  rw [hrhs, Nat.testBit_mul_pow_two_add _ hb, Nat.testBit_or, Nat.testBit_and,
    Nat.testBit_xor, Nat.testBit_shiftLeft, Nat.testBit_shiftLeft, h255,
    Nat.testBit_two_pow_sub_one, Nat.testBit_two_pow_sub_one]
  rcases Nat.lt_or_ge i (8 * k) with h1 | h1
  · have hik : ¬ i ≥ 8 * k := by omega
    have hik2 : i < 8 * (k + 1) := by omega
    have hi64 : i < 64 := by omega
    simp [h1, hik, hi64, hik2, Nat.testBit_mul_pow_two_add _ hlo]
  · rcases Nat.lt_or_ge i (8 * k + 8) with h2 | h2
    · have hl8 : i - 8 * k < 8 := by omega
      have hi64 : i < 64 := by omega
      have hik2 : i < 8 * (k + 1) := by omega
      have hn : ¬ i < 8 * k := by omega
      simp [h1, hl8, hi64, hik2, hn, Nat.testBit_mul_pow_two_add _ hlo]
    · have hv8 : v < 2 ^ (i - 8 * k) := by
        calc v < 256 := hv
          _ = 2 ^ 8 := by norm_num
          _ ≤ 2 ^ (i - 8 * k) := Nat.pow_le_pow_right (by omega) (by omega)
      have hvbit : v.testBit (i - 8 * k) = false := Nat.testBit_lt_two_pow hv8
      have hl8n : ¬ i - 8 * k < 8 := by omega
      have hik2n : ¬ i < 8 * (k + 1) := by omega
      rcases Nat.lt_or_ge i 64 with h3 | h3
      · have hdd : (W / 2 ^ (8 * (k + 1))).testBit (i - 8 * (k + 1)) = W.testBit i := by
          rw [show W / 2 ^ (8 * (k + 1)) = W >>> (8 * (k + 1)) from
            (Nat.shiftRight_eq_div_pow _ _).symm, Nat.testBit_shiftRight]
          congr 1
          omega
        simp [h1, hl8n, h3, hik2n, hvbit, hdd]
      · have hW64 : W < 2 ^ i := by
          calc W < 2 ^ 64 := hW
            _ ≤ 2 ^ i := Nat.pow_le_pow_right (by omega) h3
        have hWbit : W.testBit i = false := Nat.testBit_lt_two_pow hW64
        have hhi : W / 2 ^ (8 * (k + 1)) < 2 ^ (i - 8 * (k + 1)) := by
          apply Nat.div_lt_of_lt_mul
          calc W < 2 ^ 64 := hW
            _ ≤ 2 ^ (8 * (k + 1)) * 2 ^ (i - 8 * (k + 1)) := by
                rw [← Nat.pow_add]
                exact Nat.pow_le_pow_right (by omega) (by omega)
        have hhibit : (W / 2 ^ (8 * (k + 1))).testBit (i - 8 * (k + 1)) = false :=
          Nat.testBit_lt_two_pow hhi
        simp [hWbit, hvbit, hik2n, hhibit]

theorem wordByte_updWord_self (W v k : Nat) (hv : v < 256) :
    wordByte (updWord W k v) k = v := by
  unfold wordByte updWord
  have hP : (0:Nat) < 2 ^ (8 * k) := Nat.two_pow_pos _
  rw [pow_mul256 k]
  have hre : W % 2 ^ (8 * k) + v * 2 ^ (8 * k) +
      2 ^ (8 * k) * 256 * (W / (2 ^ (8 * k) * 256)) =
      W % 2 ^ (8 * k) + 2 ^ (8 * k) * (v + 256 * (W / (2 ^ (8 * k) * 256))) := by ring
  rw [hre, Nat.add_mul_div_left _ _ hP, Nat.div_eq_of_lt (Nat.mod_lt _ hP), Nat.zero_add,
    Nat.add_mul_mod_self_left, Nat.mod_eq_of_lt hv]

theorem wordByte_updWord_of_lt (W v j k : Nat) (hjk : j < k) :
    wordByte (updWord W k v) j = wordByte W j := by
  unfold wordByte updWord
  have hQ : (0:Nat) < 2 ^ (8 * j) := Nat.two_pow_pos _
  have hPQ : 2 ^ (8 * k) = 2 ^ (8 * j) * 2 ^ (8 * (k - j)) := by
    rw [← Nat.pow_add]
    congr 1
    omega
  have hD : 2 ^ (8 * (k - j)) = 256 * 2 ^ (8 * (k - j) - 8) := by
    have h8 : (256:Nat) = 2 ^ 8 := by norm_num
    rw [h8, ← Nat.pow_add]
    congr 1
    omega
  have h256 : (256:Nat) ∣ 2 ^ (8 * (k - j)) := by
    rw [hD]
    exact Dvd.intro _ rfl
  rw [pow_mul256 k, hPQ]
  have hre : W % (2 ^ (8 * j) * 2 ^ (8 * (k - j))) +
      v * (2 ^ (8 * j) * 2 ^ (8 * (k - j))) +
      2 ^ (8 * j) * 2 ^ (8 * (k - j)) * 256 *
        (W / (2 ^ (8 * j) * 2 ^ (8 * (k - j)) * 256)) =
      W % (2 ^ (8 * j) * 2 ^ (8 * (k - j))) +
      2 ^ (8 * j) * (2 ^ (8 * (k - j)) * (v +
        256 * (W / (2 ^ (8 * j) * 2 ^ (8 * (k - j)) * 256)))) := by ring
  rw [hre, Nat.add_mul_div_left _ _ hQ, Nat.mod_mul_right_div_self]
  have hm : 2 ^ (8 * (k - j)) * (v + 256 * (W / (2 ^ (8 * j) * 2 ^ (8 * (k - j)) * 256))) % 256
      = 0 := by
    rw [hD]
    have hre2 : 256 * 2 ^ (8 * (k - j) - 8) *
        (v + 256 * (W / (2 ^ (8 * j) * (256 * 2 ^ (8 * (k - j) - 8)) * 256))) =
        256 * (2 ^ (8 * (k - j) - 8) *
        (v + 256 * (W / (2 ^ (8 * j) * (256 * 2 ^ (8 * (k - j) - 8)) * 256)))) := by ring
    rw [hre2]
    exact Nat.mul_mod_right _ _
  rw [Nat.add_mod, hm, Nat.add_zero, Nat.mod_mod_of_dvd _ (dvd_refl 256),
    Nat.mod_mod_of_dvd _ h256]

theorem updWord_div_high (W v k : Nat) (hv : v < 256) :
    updWord W k v / 2 ^ (8 * (k + 1)) = W / 2 ^ (8 * (k + 1)) := by
  unfold updWord
  have hP : (0:Nat) < 2 ^ (8 * k) := Nat.two_pow_pos _
  have hM : (0:Nat) < 2 ^ (8 * (k + 1)) := Nat.two_pow_pos _
  have hb : W % 2 ^ (8 * k) + v * 2 ^ (8 * k) < 2 ^ (8 * (k + 1)) := by
    have h1 : W % 2 ^ (8 * k) < 2 ^ (8 * k) := Nat.mod_lt _ hP
    have h2 : v * 2 ^ (8 * k) ≤ 255 * 2 ^ (8 * k) := Nat.mul_le_mul_right _ (by omega)
    have h4 := pow_mul256 k
    have h3 : 2 ^ (8 * k) + 255 * 2 ^ (8 * k) = 2 ^ (8 * k) * 256 := by ring
    omega
  rw [Nat.add_mul_div_left _ _ hM, Nat.div_eq_of_lt hb, Nat.zero_add]

theorem wordByte_updWord_of_gt (W v j k : Nat) (hv : v < 256) (hjk : k < j) :
    wordByte (updWord W k v) j = wordByte W j := by
  unfold wordByte
  have hsplit : 2 ^ (8 * j) = 2 ^ (8 * (k + 1)) * 2 ^ (8 * j - 8 * (k + 1)) := by
    rw [← Nat.pow_add]
    congr 1
    omega
  rw [hsplit, ← Nat.div_div_eq_div_mul, ← Nat.div_div_eq_div_mul, updWord_div_high W v k hv]

theorem wordByte_updWord_ne (W v j k : Nat) (hv : v < 256) (hjk : j ≠ k) :
    wordByte (updWord W k v) j = wordByte W j := by
  rcases Nat.lt_or_ge j k with h | h
  · exact wordByte_updWord_of_lt W v j k h
  · exact wordByte_updWord_of_gt W v j k hv (by omega)

theorem updWord_wordByte_self (W k : Nat) : updWord W k (wordByte W k) = W := by
  unfold wordByte updWord
  rw [pow_mul256 k]
  have h1 : W % (2 ^ (8 * k) * 256) = W % 2 ^ (8 * k) + 2 ^ (8 * k) * (W / 2 ^ (8 * k) % 256) :=
    Nat.mod_mul
  have h2 : W % (2 ^ (8 * k) * 256) + 2 ^ (8 * k) * 256 * (W / (2 ^ (8 * k) * 256)) = W :=
    Nat.mod_add_div _ _
  have hre : W % 2 ^ (8 * k) + W / 2 ^ (8 * k) % 256 * 2 ^ (8 * k) +
      2 ^ (8 * k) * 256 * (W / (2 ^ (8 * k) * 256)) =
      (W % 2 ^ (8 * k) + 2 ^ (8 * k) * (W / 2 ^ (8 * k) % 256)) +
      2 ^ (8 * k) * 256 * (W / (2 ^ (8 * k) * 256)) := by ring
  rw [hre, ← h1, h2]

theorem wordByte_lt (W k : Nat) : wordByte W k < 256 := by
  unfold wordByte
  exact Nat.mod_lt _ (by omega)

theorem extract_byte_eq (W k : Nat) : (W >>> (8 * k)) &&& 0xff = wordByte W k := by
  unfold wordByte
  rw [Nat.shiftRight_eq_div_pow]
  have h255 : (0xff : Nat) = 2 ^ 8 - 1 := by norm_num
  rw [h255, Nat.and_pow_two_sub_one_eq_mod]

theorem updWord_mod_low (W k v : Nat) :
    updWord W k v % 2 ^ (8 * k) = W % 2 ^ (8 * k) := by
  unfold updWord
  have hre : W % 2 ^ (8 * k) + v * 2 ^ (8 * k) +
      2 ^ (8 * (k + 1)) * (W / 2 ^ (8 * (k + 1))) =
      W % 2 ^ (8 * k) + 2 ^ (8 * k) *
        (v + 2 ^ (8 * (k + 1)) / 2 ^ (8 * k) * (W / 2 ^ (8 * (k + 1)))) := by
    rw [pow_mul256 k]
    have h256 : 2 ^ (8 * k) * 256 / 2 ^ (8 * k) = 256 :=
      Nat.mul_div_cancel_left _ (Nat.two_pow_pos _)
    rw [h256]
    ring
  rw [hre, Nat.add_mul_mod_self_left, Nat.mod_mod_of_dvd _ (dvd_refl _)]

theorem updWord_restore (W k v : Nat) (hv : v < 256) :
    updWord (updWord W k v) k (wordByte W k) = W := by
  have h1 : updWord W k v % 2 ^ (8 * k) = W % 2 ^ (8 * k) := updWord_mod_low W k v
  have h2 : updWord W k v / 2 ^ (8 * (k + 1)) = W / 2 ^ (8 * (k + 1)) :=
    updWord_div_high W v k hv
  calc updWord (updWord W k v) k (wordByte W k)
      = updWord W k (wordByte W k) := by
        show updWord W k v % 2 ^ (8 * k) + wordByte W k * 2 ^ (8 * k) +
            2 ^ (8 * (k + 1)) * (updWord W k v / 2 ^ (8 * (k + 1))) = _
        rw [h1, h2]
        rfl
    _ = W := updWord_wordByte_self W k

/-! ### Characterisation of align_addr_to_word and write_byte -/

theorem align_eq (a : Nat) (ha : a < 2 ^ 64) : align_addr_to_word a = a - a % 8 := by
  unfold align_addr_to_word USIZE_MOD
  have hmask : (2:Nat) ^ 64 - 8 = 2 ^ 3 * (2 ^ 61 - 1) + 0 := by norm_num
  have hrhs : a - a % 8 = 2 ^ 3 * (a / 2 ^ 3) + 0 := by
    have := Nat.div_add_mod a 8
    have h8 : (2:Nat) ^ 3 = 8 := by norm_num
    omega
  rw [hmask, hrhs]
  apply Nat.eq_of_testBit_eq
  intro i
  rw [Nat.testBit_and, Nat.testBit_mul_pow_two_add _ (Nat.two_pow_pos 3),
    Nat.testBit_mul_pow_two_add _ (Nat.two_pow_pos 3), Nat.testBit_two_pow_sub_one]
  rcases Nat.lt_or_ge i 3 with h1 | h1
  · simp [h1]
  · have hn : ¬ i < 3 := by omega
    have hdd : (a / 8).testBit (i - 3) = a.testBit i := by
      rw [show (8:Nat) = 2 ^ 3 from by norm_num,
        show a / 2 ^ 3 = a >>> 3 from (Nat.shiftRight_eq_div_pow _ _).symm,
        Nat.testBit_shiftRight]
      congr 1
      omega
    rcases Nat.lt_or_ge i 64 with h2 | h2
    · have h61 : i - 3 < 61 := by omega
      simp [hn, h61, hdd]
    · have h61 : ¬ i - 3 < 61 := by omega
      have habit : a.testBit i = false :=
        Nat.testBit_lt_two_pow (by
          calc a < 2 ^ 64 := ha
            _ ≤ 2 ^ i := Nat.pow_le_pow_right (by omega) h2)
      simp [hn, h61, hdd, habit]

theorem align_offset (a : Nat) (ha : a < 2 ^ 64) :
    a - align_addr_to_word a = a % 8 := by
  rw [align_eq a ha]
  omega

theorem offset_ne_of_align_eq {a1 a : Nat} (h1 : a1 < 2 ^ 64) (h2 : a < 2 ^ 64)
    (heq : align_addr_to_word a1 = align_addr_to_word a) (hne : a1 ≠ a) :
    a1 % 8 ≠ a % 8 := by
  rw [align_eq a1 h1, align_eq a h2] at heq
  omega

/-- Full characterisation of a successful write_byte: the returned byte is the byte
previously at addr, and memory changes only at the aligned word, which gets its
addr-byte replaced by val. -/
theorem write_byte_ok (m : Mem) (a v w : Nat) (ha : a < 2 ^ 64) (hv : v < 256)
    (hm : m (align_addr_to_word a) = some w) :
    write_byte m a v = .ok (wordByte (w % USIZE_MOD) (a % 8),
      fun x => if x = align_addr_to_word a
        then some (updWord (w % USIZE_MOD) (a % 8) v) else m x) := by
  have hW : w % (2 ^ 64) < 2 ^ 64 := Nat.mod_lt _ (by omega)
  have hk : a % 8 < 8 := Nat.mod_lt _ (by omega)
  have hlt : updWord (w % 2 ^ 64) (a % 8) v < 2 ^ 64 := updWord_lt hW hv hk
  have hmod : updWord (w % 2 ^ 64) (a % 8) v % 2 ^ 64
      = updWord (w % 2 ^ 64) (a % 8) v := Nat.mod_eq_of_lt hlt
  unfold write_byte ptraceRead ptraceWrite USIZE_MOD
  simp only [hm, align_offset a ha, extract_byte_eq, update_word_eq _ _ _ hW hv hk, hmod]

theorem byteAt_some (m : Mem) (a w : Nat) (ha : a < 2 ^ 64)
    (hm : m (align_addr_to_word a) = some w) :
    byteAt m a = some (wordByte (w % USIZE_MOD) (a % 8)) := by
  unfold byteAt
  rw [hm, align_offset a ha]
  rfl

/-- Helper: a successful write_byte pins down the returned byte and the new memory. -/
theorem write_byte_inv (m : Mem) (a v w b : Nat) (m1 : Mem) (ha : a < 2 ^ 64)
    (hv : v < 256) (hm : m (align_addr_to_word a) = some w)
    (h : write_byte m a v = .ok (b, m1)) :
    b = wordByte (w % USIZE_MOD) (a % 8) ∧
      m1 = fun x => if x = align_addr_to_word a
        then some (updWord (w % USIZE_MOD) (a % 8) v) else m x := by
  rw [write_byte_ok m a v w ha hv hm] at h
  have h2 := (Except.ok.injEq _ _).mp h
  simp only [Prod.mk.injEq] at h2
  exact ⟨h2.1.symm, h2.2.symm⟩

/-- Helper: the byte at a after a successful write_byte of v at a is v. -/
theorem byteAt_after_write (m : Mem) (a v w b : Nat) (m1 : Mem) (ha : a < 2 ^ 64)
    (hv : v < 256) (hm : m (align_addr_to_word a) = some w)
    (h : write_byte m a v = .ok (b, m1)) :
    byteAt m1 a = some v := by
  obtain ⟨-, hm1⟩ := write_byte_inv m a v w b m1 ha hv hm h
  have hW : w % USIZE_MOD < 2 ^ 64 := Nat.mod_lt _ (by unfold USIZE_MOD; omega)
  have hk : a % 8 < 8 := Nat.mod_lt _ (by omega)
  have hm1a : m1 (align_addr_to_word a) = some (updWord (w % USIZE_MOD) (a % 8) v) := by
    rw [hm1]
    simp
  have hmod : updWord (w % USIZE_MOD) (a % 8) v % USIZE_MOD
      = updWord (w % USIZE_MOD) (a % 8) v := Nat.mod_eq_of_lt (updWord_lt hW hv hk)
  rw [byteAt_some m1 a _ ha hm1a, hmod, wordByte_updWord_self _ _ _ hv]

/-! ### Claim theorems -/

/-- C1: for every address a in a traced process whose word-level read and write
primitives succeed, install_breakpoints (write_byte with 0xCC) returns exactly
the byte stored at a before the call, and afterwards the aligned word holding a
differs from its prior value only in the byte at a, which now holds 0xCC (all
other bytes of that word, and all other words, are unchanged). -/
theorem c1_install_returns_original_and_writes_trap (m : Mem) (a w : Nat)
    (ha : a < 2 ^ 64) (hm : m (align_addr_to_word a) = some w) :
    ∃ b m1, byteAt m a = some b ∧ install_breakpoints m a = .ok (b, m1) ∧
      byteAt m1 a = some 0xcc ∧
      (∀ a1, a1 < 2 ^ 64 → align_addr_to_word a1 = align_addr_to_word a → a1 ≠ a →
        byteAt m1 a1 = byteAt m a1) ∧
      (∀ x, x ≠ align_addr_to_word a → m1 x = m x) := by
  have hcc : (0xcc : Nat) < 256 := by norm_num
  have hwb := write_byte_ok m a 0xcc w ha hcc hm
  have hW : w % USIZE_MOD < 2 ^ 64 := Nat.mod_lt _ (by unfold USIZE_MOD; omega)
  have hk : a % 8 < 8 := Nat.mod_lt _ (by omega)
  refine ⟨wordByte (w % USIZE_MOD) (a % 8),
    fun x => if x = align_addr_to_word a
      then some (updWord (w % USIZE_MOD) (a % 8) 0xcc) else m x,
    byteAt_some m a w ha hm, ?_, ?_, ?_, ?_⟩
  · unfold install_breakpoints
    exact hwb
  · have hm1 : (fun x => if x = align_addr_to_word a
        then some (updWord (w % USIZE_MOD) (a % 8) 0xcc) else m x)
        (align_addr_to_word a) = some (updWord (w % USIZE_MOD) (a % 8) 0xcc) := by
      simp
    rw [byteAt_some _ a _ ha hm1]
    have hmod : updWord (w % USIZE_MOD) (a % 8) 0xcc % USIZE_MOD
        = updWord (w % USIZE_MOD) (a % 8) 0xcc := Nat.mod_eq_of_lt (updWord_lt hW hcc hk)
    rw [hmod, wordByte_updWord_self _ _ _ hcc]
  · intro a1 h1 heq hne
    have hm1 : (fun x => if x = align_addr_to_word a
        then some (updWord (w % USIZE_MOD) (a % 8) 0xcc) else m x)
        (align_addr_to_word a1) = some (updWord (w % USIZE_MOD) (a % 8) 0xcc) := by
      rw [heq]
      simp
    have hma1 : m (align_addr_to_word a1) = some w := by rw [heq]; exact hm
    rw [byteAt_some _ a1 _ h1 hm1, byteAt_some m a1 w h1 hma1]
    have hmod : updWord (w % USIZE_MOD) (a % 8) 0xcc % USIZE_MOD
        = updWord (w % USIZE_MOD) (a % 8) 0xcc := Nat.mod_eq_of_lt (updWord_lt hW hcc hk)
    rw [hmod, wordByte_updWord_ne _ _ _ _ hcc (offset_ne_of_align_eq h1 ha heq hne)]
  · intro x hx
    simp [hx]

/-- C1 witness: a concrete memory, address 3 inside the word at 0. -/
theorem c1_witness :
    ((fun _ => some 0x1122334455667788 : Mem) (align_addr_to_word 3)
      = some 0x1122334455667788) ∧
    (∃ b m1, byteAt (fun _ => some 0x1122334455667788 : Mem) 3 = some b ∧
      install_breakpoints (fun _ => some 0x1122334455667788 : Mem) 3 = .ok (b, m1) ∧
      byteAt m1 3 = some 0xcc ∧
      (∀ a1, a1 < 2 ^ 64 → align_addr_to_word a1 = align_addr_to_word 3 → a1 ≠ 3 →
        byteAt m1 a1 = byteAt (fun _ => some 0x1122334455667788 : Mem) a1) ∧
      (∀ x, x ≠ align_addr_to_word 3 → m1 x = (fun _ => some 0x1122334455667788 : Mem) x)) :=
  ⟨rfl, c1_install_returns_original_and_writes_trap _ 3 _ (by norm_num) rfl⟩

/-- C3: installing the trap at a and reading back the byte at a yields 0xCC, and
the round trip write_byte(a, 0xCC) = b followed by write_byte(a, b) returns the
trap byte and leaves the memory exactly as it was before the install. -/
theorem c3_install_restore_roundtrip (m : Mem) (a w : Nat) (ha : a < 2 ^ 64)
    (hw : w < 2 ^ 64) (hm : m (align_addr_to_word a) = some w) :
    ∃ b m1, write_byte m a 0xcc = .ok (b, m1) ∧ byteAt m1 a = some 0xcc ∧
      write_byte m1 a b = .ok (0xcc, m) := by
  have hcc : (0xcc : Nat) < 256 := by norm_num
  have hk : a % 8 < 8 := Nat.mod_lt _ (by omega)
  have hmodw : w % USIZE_MOD = w := Nat.mod_eq_of_lt hw
  have hwb := write_byte_ok m a 0xcc w ha hcc hm
  rw [hmodw] at hwb
  set w1 := updWord w (a % 8) 0xcc with hw1def
  have hw1lt : w1 < 2 ^ 64 := updWord_lt hw hcc hk
  have hb : wordByte w (a % 8) < 256 := wordByte_lt _ _
  set m1 : Mem := fun x => if x = align_addr_to_word a then some w1 else m x with hm1def
  have hm1a : m1 (align_addr_to_word a) = some w1 := by
    rw [hm1def]
    simp
  refine ⟨wordByte w (a % 8), m1, hwb, ?_, ?_⟩
  · rw [byteAt_some m1 a w1 ha hm1a]
    have hmod1 : w1 % USIZE_MOD = w1 := Nat.mod_eq_of_lt hw1lt
    rw [hmod1, hw1def, wordByte_updWord_self _ _ _ hcc]
  · have hwb2 := write_byte_ok m1 a (wordByte w (a % 8)) w1 ha hb hm1a
    have hmod1 : w1 % USIZE_MOD = w1 := Nat.mod_eq_of_lt hw1lt
    rw [hmod1] at hwb2
    have hbyte : wordByte w1 (a % 8) = 0xcc := by
      rw [hw1def, wordByte_updWord_self _ _ _ hcc]
    have hrestore : updWord w1 (a % 8) (wordByte w (a % 8)) = w := by
      rw [hw1def, updWord_restore _ _ _ hcc]
    have hfun : (fun x => if x = align_addr_to_word a
        then some (updWord w1 (a % 8) (wordByte w (a % 8))) else m1 x) = m := by
      funext x
      by_cases hx : x = align_addr_to_word a
      · rw [if_pos hx, hrestore, hx, hm]
      · rw [if_neg hx, hm1def]
        simp [hx]
    rw [hwb2, hbyte, hfun]

/-- C3 witness: concrete memory and address 5. -/
theorem c3_witness :
    ((fun _ => some 0xdeadbeef12345678 : Mem) (align_addr_to_word 5)
      = some 0xdeadbeef12345678) ∧
    (∃ b m1, write_byte (fun _ => some 0xdeadbeef12345678 : Mem) 5 0xcc = .ok (b, m1) ∧
      byteAt m1 5 = some 0xcc ∧
      write_byte m1 5 b = .ok (0xcc, (fun _ => some 0xdeadbeef12345678 : Mem))) :=
  ⟨rfl, c3_install_restore_roundtrip _ 5 _ (by norm_num) (by norm_num) rfl⟩

/-- C4: step_breakpoint restores the original byte at the address, rewinds rip to
the address, performs exactly one single-step-and-wait, and returns success with
the trap reinstalled if and only if that wait reported a SIGTRAP stop; on any
other stop, exit or signal it returns false and performs no further write (the
trap stays uninstalled: the resulting state is exactly the post-step state). -/
theorem c4_step_breakpoint_spec (os : OS) (inf : Inferior) (rip b w : Nat)
    (ha : rip < 2 ^ 64) (hb : b < 256)
    (hm : inf.mem (align_addr_to_word rip) = some w) :
    ∀ b0 m1, write_byte inf.mem rip b = .ok (b0, m1) →
      byteAt m1 rip = some b ∧
      (∀ inf2 r, os.stepWait ⟨m1, { inf.regs with rip := rip }⟩
          = (inf2, .Stopped .SIGTRAP r) →
        ∀ w2, inf2.mem (align_addr_to_word rip) = some w2 →
        ∃ m3, step_breakpoint os inf rip b = .ok (true, ⟨m3, inf2.regs⟩) ∧
          byteAt m3 rip = some 0xcc) ∧
      (∀ inf2 st, os.stepWait ⟨m1, { inf.regs with rip := rip }⟩ = (inf2, st) →
        (∀ r, st ≠ .Stopped .SIGTRAP r) →
        step_breakpoint os inf rip b = .ok (false, inf2)) := by
  intro b0 m1 hwb
  have hcc : (0xcc : Nat) < 256 := by norm_num
  refine ⟨byteAt_after_write inf.mem rip b w b0 m1 ha hb hm hwb, ?_, ?_⟩
  · intro inf2 r hstep w2 hm2
    refine ⟨fun x => if x = align_addr_to_word rip
      then some (updWord (w2 % USIZE_MOD) (rip % 8) 0xcc) else inf2.mem x, ?_, ?_⟩
    · unfold step_breakpoint
      rw [hwb]
      simp only [hstep, if_true]
      unfold install_breakpoints
      rw [write_byte_ok inf2.mem rip 0xcc w2 ha hcc hm2]
    · exact byteAt_after_write inf2.mem rip 0xcc w2 _ _ ha hcc hm2
        (by rw [write_byte_ok inf2.mem rip 0xcc w2 ha hcc hm2])
  · intro inf2 st hstep hne
    unfold step_breakpoint
    rw [hwb]
    simp only [hstep]
    match st, hne with
    | .Stopped s r, hne =>
      have hs : ¬ s = Signal.SIGTRAP := by
        intro hcontra
        exact hne r (by rw [hcontra])
      simp [hs]
    | .Exited code, _ => rfl
    | .Signaled sig, _ => rfl

/-- C4 witness: concrete process and oracles exercising the SIGTRAP branch of
step_breakpoint. -/
theorem c4_witness :
    ((⟨fun _ => some 0x90, ⟨9, 0⟩⟩ : Inferior).mem
        (align_addr_to_word 8) = some 0x90) ∧
    (∀ b0 m1,
      write_byte (⟨fun _ => some 0x90, ⟨9, 0⟩⟩ : Inferior).mem 8 0x90 = .ok (b0, m1) →
      byteAt m1 8 = some 0x90 ∧
      (∀ inf2 r,
        (OS.mk (fun i => (i, .Stopped .SIGTRAP 9)) (fun i => (i, .Stopped .SIGTRAP 9))).stepWait
          ⟨m1, { (⟨fun _ => some 0x90, ⟨9, 0⟩⟩ : Inferior).regs with rip := 8 }⟩
          = (inf2, .Stopped .SIGTRAP r) →
        ∀ w2, inf2.mem (align_addr_to_word 8) = some w2 →
        ∃ m3, step_breakpoint
            (OS.mk (fun i => (i, .Stopped .SIGTRAP 9)) (fun i => (i, .Stopped .SIGTRAP 9)))
            (⟨fun _ => some 0x90, ⟨9, 0⟩⟩ : Inferior) 8 0x90 = .ok (true, ⟨m3, inf2.regs⟩) ∧
          byteAt m3 8 = some 0xcc) ∧
      (∀ inf2 st,
        (OS.mk (fun i => (i, .Stopped .SIGTRAP 9)) (fun i => (i, .Stopped .SIGTRAP 9))).stepWait
          ⟨m1, { (⟨fun _ => some 0x90, ⟨9, 0⟩⟩ : Inferior).regs with rip := 8 }⟩ = (inf2, st) →
        (∀ r, st ≠ .Stopped .SIGTRAP r) →
        step_breakpoint
            (OS.mk (fun i => (i, .Stopped .SIGTRAP 9)) (fun i => (i, .Stopped .SIGTRAP 9)))
            (⟨fun _ => some 0x90, ⟨9, 0⟩⟩ : Inferior) 8 0x90 = .ok (false, inf2))) :=
  ⟨rfl, c4_step_breakpoint_spec _ _ 8 0x90 0x90 (by norm_num) (by norm_num) rfl⟩

/-- C5: a continue issued while the reported rip is one past a registered
breakpoint address a never re-reports the stop consumed at entry.  The arm
detects the condition by looking up rip - 1 (get_previous_ins) in the registry,
restores the original byte at a and rewinds rip to a, single-steps the original
instruction (one stepWait transition: the forward progress past a), reinstalls
the trap, and only then resumes; the one stop report the command emits is the
outcome of that later resume. -/
theorem c5_continue_steps_past_breakpoint (os : OS) (dd : DwarfData) (d : Debugger)
    (inf : Inferior) (a w : Nat) (bp : BreakPoint)
    (hinf : d.inferior = some inf)
    (hrip : inf.regs.rip = a + 1)
    (hbp : bpLookup d.breakpoints a = some bp)
    (ha : a < 2 ^ 64) (hob : bp.orig_byte < 256)
    (hm : inf.mem (align_addr_to_word a) = some w) :
    get_previous_ins inf = a ∧
    (∀ b0 m1, write_byte inf.mem a bp.orig_byte = .ok (b0, m1) →
      byteAt m1 a = some bp.orig_byte ∧
      (∀ inf2 r, os.stepWait ⟨m1, { inf.regs with rip := a }⟩
          = (inf2, .Stopped .SIGTRAP r) →
        ∀ w2, inf2.mem (align_addr_to_word a) = some w2 →
        ∀ b2 m3, install_breakpoints inf2.mem a = .ok (b2, m3) →
          byteAt m3 a = some 0xcc ∧
          (∀ inf3 sig2 addr2, os.contWait ⟨m3, inf2.regs⟩ = (inf3, .Stopped sig2 addr2) →
            ∀ inf4 st4, os.contWait inf3 = (inf4, st4) →
            continueArm os dd d =
              .next (.prevStopped bp :: .childStopped sig2 :: reportLoc dd addr2) 2
                ⟨some inf4, d.breakpoints⟩))) := by
  have hprev : get_previous_ins inf = a := by
    unfold get_previous_ins
    omega
  refine ⟨hprev, ?_⟩
  intro b0 m1 hwb
  refine ⟨byteAt_after_write inf.mem a bp.orig_byte w b0 m1 ha hob hm hwb, ?_⟩
  intro inf2 r hstep w2 hm2 b2 m3 hinst
  have hcc : (0xcc : Nat) < 256 := by norm_num
  have hinst2 : write_byte inf2.mem a 0xcc = .ok (b2, m3) := hinst
  refine ⟨byteAt_after_write inf2.mem a 0xcc w2 b2 m3 ha hcc hm2 hinst2, ?_⟩
  intro inf3 sig2 addr2 hcont inf4 st4 hcont2
  have hstepbp : step_breakpoint os inf a bp.orig_byte = .ok (true, ⟨m3, inf2.regs⟩) := by
    unfold step_breakpoint
    rw [hwb]
    simp only [hstep, if_true]
    rw [hinst]
  unfold continueArm
  rw [hinf]
  simp only [hprev, hbp, hstepbp]
  unfold resume_and_report continue_run
  rw [hcont]
  simp only [hcont2]
  rfl

/-- C5 witness: concrete session stopped at address 9 = 8 + 1 with a registered
breakpoint at 8 whose recorded original byte is 0x90. -/
theorem c5_witness :
    ((⟨some ⟨fun _ => some 0x90, ⟨9, 0⟩⟩, [(8, ⟨1, 8, 0x90⟩)]⟩ : Debugger).inferior
        = some ⟨fun _ => some 0x90, ⟨9, 0⟩⟩) ∧
    (get_previous_ins ⟨fun _ => some 0x90, ⟨9, 0⟩⟩ = 8 ∧
      (∀ b0 m1,
        write_byte (⟨fun _ => some 0x90, ⟨9, 0⟩⟩ : Inferior).mem 8
            (⟨1, 8, 0x90⟩ : BreakPoint).orig_byte = .ok (b0, m1) →
        byteAt m1 8 = some (⟨1, 8, 0x90⟩ : BreakPoint).orig_byte ∧
        (∀ inf2 r,
          (OS.mk (fun i => (i, .Stopped .SIGTRAP 9))
              (fun i => (i, .Stopped .SIGINT 42))).stepWait
            ⟨m1, { (⟨fun _ => some 0x90, ⟨9, 0⟩⟩ : Inferior).regs with rip := 8 }⟩
            = (inf2, .Stopped .SIGTRAP r) →
          ∀ w2, inf2.mem (align_addr_to_word 8) = some w2 →
          ∀ b2 m3, install_breakpoints inf2.mem 8 = .ok (b2, m3) →
            byteAt m3 8 = some 0xcc ∧
            (∀ inf3 sig2 addr2,
              (OS.mk (fun i => (i, .Stopped .SIGTRAP 9))
                  (fun i => (i, .Stopped .SIGINT 42))).contWait ⟨m3, inf2.regs⟩
                = (inf3, .Stopped sig2 addr2) →
              ∀ inf4 st4,
                (OS.mk (fun i => (i, .Stopped .SIGTRAP 9))
                    (fun i => (i, .Stopped .SIGINT 42))).contWait inf3 = (inf4, st4) →
              continueArm
                  (OS.mk (fun i => (i, .Stopped .SIGTRAP 9))
                    (fun i => (i, .Stopped .SIGINT 42)))
                  ddNone
                  ⟨some ⟨fun _ => some 0x90, ⟨9, 0⟩⟩, [(8, ⟨1, 8, 0x90⟩)]⟩ =
                .next (.prevStopped ⟨1, 8, 0x90⟩ :: .childStopped sig2 ::
                    reportLoc ddNone addr2) 2
                  ⟨some inf4, [(8, ⟨1, 8, 0x90⟩)]⟩)))) :=
  ⟨rfl, c5_continue_steps_past_breakpoint _ _ _ _ 8 0x90 _ rfl rfl rfl
    (by norm_num) (by norm_num) rfl⟩

/-- C2 (code-bug evidence): running with a registered breakpoint at address 0
into a process whose byte there is 0x55: the run-path install succeeds and
captures 0x55 (the trap really is written), but Inferior::new discards the
captured byte and the Run arm never touches the registry, whose entry keeps
orig_byte = 0.  The registry therefore does not record the original byte on
the fresh-spawn installation path, contradicting the claim. -/
theorem c2_run_path_registry_keeps_zero :
    byteAt memC 0 = some 0x55 ∧
    (install_breakpoints memC 0).toOption.map Prod.fst = some 0x55 ∧
    (runArm osStop ddNone (some infC) ⟨none, [(0, BreakPoint.new 1 0)]⟩).registry
      = some [(0, ⟨1, 0, 0⟩)] ∧
    (runArm osStop ddNone (some infC) ⟨none, [(0, BreakPoint.new 1 0)]⟩).inferiorByte 0
      = some 0xcc := by
  refine ⟨by decide, by decide, by decide, by decide⟩

/-- C6 (code-bug evidence): a continue that observes the child exit reports it
and then crashes the whole session (the trailing continue_run unwraps a None
inferior), instead of settling in the NoProcess state; and a continue that
observes a stop performs two resume-and-wait cycles, not one. -/
theorem c6_continue_crashes_after_exit_and_double_resumes :
    (continueArm osExit ddNone ⟨some infC, []⟩).isCrash = true ∧
    (continueArm osExit ddNone ⟨some infC, []⟩).output = [.childExited 0] ∧
    (continueArm osExit ddNone ⟨some infC, []⟩).resumes = 1 ∧
    (continueArm osStop ddNone ⟨some infC, []⟩).resumes = 2 := by
  refine ⟨by decide, by decide, by decide, by decide⟩

/-- C7: break-token dispatch follows raw > numeric-line > symbolic-function
exactly.  A leading star always takes the raw-hex path and performs no resolver
call; otherwise a full base-10 parse consults line resolution only; any other
token consults function resolution only; and parse_address accepts an optional
0x / 0X prefix. -/
theorem c7_break_dispatch (dd : DwarfData) (d : Debugger) :
    (∀ rest : List Char,
      breakArm dd d (String.mk ('*' :: rest)) =
        match parse_address (String.mk rest) with
        | none => .error .crash
        | some breakpoint => .ok (breakRegister d breakpoint, [])) ∧
    (∀ s : String, s.data.head? ≠ some '*' →
      ∀ n, from_str_radix 10 s.data = some n →
      breakArm dd d s =
        match dd.get_addr_for_line n with
        | none => .ok (d, [.line n])
        | some breakpoint => .ok (breakRegister d breakpoint, [.line n])) ∧
    (∀ s : String, s.data.head? ≠ some '*' →
      from_str_radix 10 s.data = none →
      breakArm dd d s =
        match dd.get_addr_for_function s with
        | none => .ok (d, [.func s])
        | some breakpoint => .ok (breakRegister d breakpoint, [.func s])) ∧
    (∀ rest : List Char, parse_address (String.mk ('0' :: 'x' :: rest))
        = from_str_radix 16 rest) ∧
    (∀ rest : List Char, parse_address (String.mk ('0' :: 'X' :: rest))
        = from_str_radix 16 rest) := by
  refine ⟨?_, ?_, ?_, ?_, ?_⟩
  · intro rest
    rfl
  · intro s h1 n h2
    unfold breakArm get_breakpoint_type
    rw [if_neg h1, h2]
  · intro s h1 h2
    unfold breakArm get_breakpoint_type
    rw [if_neg h1, h2]
  · intro rest
    rfl
  · intro rest
    rfl

/-- C7 witness: a raw token never consults the resolver, a numeric token
consults line resolution only, and a name consults function resolution only. -/
theorem c7_witness :
    (("42" : String).data.head? ≠ some '*' ∧
      from_str_radix 10 ("42" : String).data = some 42 ∧
      ("main" : String).data.head? ≠ some '*' ∧
      from_str_radix 10 ("main" : String).data = none) ∧
    breakArm ddResolve dEmpty (String.mk ['*', '0', 'x', '1', '0']) =
      .ok (breakRegister dEmpty 16, []) ∧
    breakArm ddResolve dEmpty "42" =
      .ok (breakRegister dEmpty 1042, [.line 42]) ∧
    breakArm ddResolve dEmpty "main" =
      .ok (breakRegister dEmpty 2000, [.func "main"]) := by
  refine ⟨⟨by decide, by decide, by decide, by decide⟩, ?_, ?_, ?_⟩
  · exact ((c7_break_dispatch ddResolve dEmpty).1 ['0', 'x', '1', '0']).trans (by rfl)
  · exact ((c7_break_dispatch ddResolve dEmpty).2.1 "42" (by decide) 42 (by decide)).trans
      (by rfl)
  · exact ((c7_break_dispatch ddResolve dEmpty).2.2.1 "main" (by decide) (by decide)).trans
      (by rfl)

/-- C8 (code-bug evidence): the walk does start at rip/rbp, report innermost
first, stop at main, and follow [rbp + 8] and [rbp] (second conjunct), and it
does propagate a failing memory read as an error (third conjunct); but when the
resolver yields no line for the current address it unwraps None and panics,
crashing the session instead of reporting a resolution failure (first
conjunct). -/
theorem c8_backtrace_walk_and_resolver_crash :
    print_backtrace ddNoLine infC 5 = .unwrapCrash [] ∧
    print_backtrace ddWalk infWalk 5 = .frames [("foo", 1), ("main", 2)] ∧
    print_backtrace ddWalk infNoMem 5 = .memErr [("foo", 1)] := by
  refine ⟨by decide, by decide, by decide⟩

/-- C9 (code-bug evidence): quit with a live inferior kills and reaps it, but
quit in the NoProcess state (before any run) unwraps a None inferior and
panics instead of ending the session cleanly. -/
theorem c9_quit_crashes_in_noprocess_state :
    quitArm ⟨none, []⟩ true = .error .crash ∧
    quitArm ⟨some infC, []⟩ true = .ok true :=
  ⟨rfl, rfl⟩

/-- C10: Inferior::new returns Some exactly when the spawn succeeded, regardless
of the breakpoint-install outcomes, whose errors and returned original bytes are
silently discarded at this call site; a failing install leaves the process
state untouched and is not reported. -/
theorem c10_new_ignores_install_results :
    (∀ inf bps, Inferior.new (some inf) bps = some (installAll inf bps)) ∧
    (∀ bps, Inferior.new none bps = none) ∧
    (∀ inf a bp, inf.mem (align_addr_to_word a) = none →
      installAll inf [(a, bp)] = inf) := by
  refine ⟨fun inf bps => rfl, fun bps => rfl, ?_⟩
  intro inf a bp h
  unfold installAll install_breakpoints write_byte ptraceRead
  simp [h]

/-- C10 witness: a process whose memory is unreadable still spawns into Some,
with the failed install discarded. -/
theorem c10_witness :
    ((⟨fun _ => none, ⟨0, 0⟩⟩ : Inferior).mem (align_addr_to_word 4) = none) ∧
    installAll ⟨fun _ => none, ⟨0, 0⟩⟩ [(4, BreakPoint.new 1 4)] = ⟨fun _ => none, ⟨0, 0⟩⟩ ∧
    Inferior.new (some ⟨fun _ => none, ⟨0, 0⟩⟩) [(4, BreakPoint.new 1 4)]
      = some (installAll ⟨fun _ => none, ⟨0, 0⟩⟩ [(4, BreakPoint.new 1 4)]) :=
  ⟨rfl, c10_new_ignores_install_results.2.2 _ 4 _ rfl,
    c10_new_ignores_install_results.1 _ _⟩

end Deet
